import Mathlib

/-!
Verification development for the webmcp-bridge repository.

The bridge relays tool registrations from browser tabs (Chrome extension,
background service worker plus two content scripts) to a local CLI process
(WebSocket server plus MCP stdio server).  The definitions below are shallow
embeddings of the functions in
  cli/src/security.ts, cli/src/ws-server.ts, cli/src/mcp-server.ts,
  extension/background.js, and the MAIN-world content script,
and the theorems settle the specification claims about them.
-/

/-! ## JSON-like values and wire-protocol data (cli/src/protocol.ts) -/

/-- A minimal JSON value model, used for tool input schemas, call arguments
and call results. -/
inductive JVal where
  | null
  | bool (b : Bool)
  | num (n : Int)
  | str (s : String)
  | arr (xs : List JVal)
  | obj (fields : List (String × JVal))

/-- ToolSchema from cli/src/protocol.ts: a tool as advertised by the
extension. -/
structure ToolSchema where
  name : String
  description : String
  inputSchema : JVal

/-- ToolResultMessage from cli/src/protocol.ts: call outcome frame; carries
optional result, optional error string and an isError flag. -/
structure ToolResultMessage where
  callId : String
  result : Option JVal
  error : Option String
  isError : Bool

/-- Inbound frames as classified by the ws-server message handler: the four
recognized type tags, with malformed or unrecognized frames collapsed into
the ignored case (the handler silently drops them). -/
inductive Frame where
  | registerTools (tools : List ToolSchema)
  | toolsChanged
  | toolsList (requestId : String) (tools : List ToolSchema)
  | toolResult (r : ToolResultMessage)
  | ignored

/-! ## Association-list operations modelling JS Map

The JS code keeps pendingCalls and tabs in Map objects.  We model a Map as an
association list whose key list stays duplicate-free; get, delete and set are
the three operations the source uses. -/

/-- Models Map.prototype.get: first value stored under the key. -/
def lookupKey {κ α : Type} [DecidableEq κ] : List (κ × α) → κ → Option α
  | [], _ => none
  | p :: rest, c => if p.1 = c then some p.2 else lookupKey rest c

/-- Models Map.prototype.delete: drop entries stored under the key. -/
def eraseKey {κ α : Type} [DecidableEq κ] : List (κ × α) → κ → List (κ × α)
  | [], _ => []
  | p :: rest, c => if p.1 = c then eraseKey rest c else p :: eraseKey rest c

/-- Models Map.prototype.set: replace in place if the key is present,
otherwise append (JS Map insertion order). -/
def setKey {κ α : Type} [DecidableEq κ] : List (κ × α) → κ → α → List (κ × α)
  | [], c, v => [(c, v)]
  | p :: rest, c, v => if p.1 = c then (c, v) :: rest else p :: setKey rest c v

/-- The key list of the map. -/
def keysOf {κ α : Type} (m : List (κ × α)) : List κ :=
  m.map Prod.fst

theorem keysOf_cons {κ α : Type} (p : κ × α) (rest : List (κ × α)) :
    keysOf (p :: rest) = p.1 :: keysOf rest := rfl

theorem lookupKey_eraseKey_self {κ α : Type} [DecidableEq κ] (m : List (κ × α)) (c : κ) :
    lookupKey (eraseKey m c) c = none := by
  induction m with
  | nil => rfl
  | cons p rest ih =>
    by_cases h : p.1 = c
    · rw [eraseKey, if_pos h]
      exact ih
    · rw [eraseKey, if_neg h, lookupKey, if_neg h]
      exact ih

theorem lookupKey_eraseKey_ne {κ α : Type} [DecidableEq κ] (m : List (κ × α)) (c c' : κ)
    (h : c' ≠ c) : lookupKey (eraseKey m c) c' = lookupKey m c' := by
  induction m with
  | nil => rfl
  | cons p rest ih =>
    by_cases hp : p.1 = c
    · rw [eraseKey, if_pos hp, lookupKey,
        if_neg (fun hpc => h ((Eq.symm hpc).trans hp))]
      exact ih
    · rw [eraseKey, if_neg hp]
      by_cases hp' : p.1 = c'
      · rw [lookupKey, if_pos hp', lookupKey, if_pos hp']
      · rw [lookupKey, if_neg hp', lookupKey, if_neg hp']
        exact ih

theorem lookupKey_setKey_self {κ α : Type} [DecidableEq κ] (m : List (κ × α)) (c : κ) (v : α) :
    lookupKey (setKey m c v) c = some v := by
  induction m with
  | nil => rw [setKey, lookupKey, if_pos rfl]
  | cons p rest ih =>
    by_cases h : p.1 = c
    · rw [setKey, if_pos h, lookupKey, if_pos rfl]
    · rw [setKey, if_neg h, lookupKey, if_neg h]
      exact ih

theorem lookupKey_setKey_ne {κ α : Type} [DecidableEq κ] (m : List (κ × α)) (c c' : κ) (v : α)
    (h : c' ≠ c) : lookupKey (setKey m c v) c' = lookupKey m c' := by
  induction m with
  | nil =>
    have hcc : ¬ (c = c') := fun hc => h (Eq.symm hc)
    simp [setKey, lookupKey, hcc]
  | cons p rest ih =>
    by_cases hp : p.1 = c
    · rw [setKey, if_pos hp, lookupKey, lookupKey,
        if_neg (show ¬ ((c, v).1 = c') from fun hc => h (Eq.symm hc)),
        if_neg (fun hpc => h ((Eq.symm hpc).trans hp))]
    · rw [setKey, if_neg hp]
      by_cases hp' : p.1 = c'
      · rw [lookupKey, if_pos hp', lookupKey, if_pos hp']
      · rw [lookupKey, if_neg hp', lookupKey, if_neg hp']
        exact ih

theorem lookupKey_eq_none_iff {κ α : Type} [DecidableEq κ] (m : List (κ × α)) (c : κ) :
    lookupKey m c = none ↔ c ∉ keysOf m := by
  induction m with
  | nil => simp [lookupKey, keysOf]
  | cons p rest ih =>
    rw [keysOf_cons]
    by_cases h : p.1 = c
    · rw [lookupKey, if_pos h]
      simp [h]
    · rw [lookupKey, if_neg h]
      rw [ih]
      have hcp : ¬ c = p.1 := fun hc => h (Eq.symm hc)
      simp [hcp]

theorem keysOf_eraseKey_sublist {κ α : Type} [DecidableEq κ] (m : List (κ × α)) (c : κ) :
    (keysOf (eraseKey m c)).Sublist (keysOf m) := by
  induction m with
  | nil => simp [eraseKey, keysOf]
  | cons p rest ih =>
    by_cases h : p.1 = c
    · rw [eraseKey, if_pos h, keysOf_cons]
      exact ih.trans (List.sublist_cons_self _ _)
    · rw [eraseKey, if_neg h, keysOf_cons, keysOf_cons]
      exact ih.cons₂ p.1

theorem nodup_keysOf_eraseKey {κ α : Type} [DecidableEq κ] (m : List (κ × α)) (c : κ)
    (h : (keysOf m).Nodup) : (keysOf (eraseKey m c)).Nodup :=
  h.sublist (keysOf_eraseKey_sublist m c)

theorem keysOf_setKey_of_mem {κ α : Type} [DecidableEq κ] (m : List (κ × α)) (c : κ) (v : α)
    (h : c ∈ keysOf m) : keysOf (setKey m c v) = keysOf m := by
  induction m with
  | nil => simp [keysOf] at h
  | cons p rest ih =>
    by_cases hp : p.1 = c
    · rw [setKey, if_pos hp, keysOf_cons, keysOf_cons, hp]
    · rw [keysOf_cons, List.mem_cons] at h
      rcases h with h | h
      · exact absurd (Eq.symm h) hp
      · rw [setKey, if_neg hp, keysOf_cons, keysOf_cons, ih h]

theorem keysOf_setKey_of_not_mem {κ α : Type} [DecidableEq κ] (m : List (κ × α)) (c : κ) (v : α)
    (h : c ∉ keysOf m) : keysOf (setKey m c v) = keysOf m ++ [c] := by
  induction m with
  | nil => rfl
  | cons p rest ih =>
    rw [keysOf_cons, List.mem_cons] at h
    push_neg at h
    have hp : ¬ p.1 = c := fun hc => h.1 (Eq.symm hc)
    rw [setKey, if_neg hp, keysOf_cons, keysOf_cons, ih h.2, List.cons_append]

theorem nodup_keysOf_setKey {κ α : Type} [DecidableEq κ] (m : List (κ × α)) (c : κ) (v : α)
    (h : (keysOf m).Nodup) : (keysOf (setKey m c v)).Nodup := by
  by_cases hc : c ∈ keysOf m
  · rw [keysOf_setKey_of_mem m c v hc]
    exact h
  · rw [keysOf_setKey_of_not_mem m c v hc]
    simp [List.nodup_append, h, hc]

/-! ## security.ts: origin validation -/

/-- Models JS String.prototype.startsWith used by validateOrigin: the
characters of the prefix are an initial segment of the string. -/
def jsStartsWith (s pre : String) : Bool :=
  pre.data.isPrefixOf s.data

/-- validateOrigin from cli/src/security.ts: absent or empty origin is
allowed, chrome-extension origins are allowed, everything else is
rejected. -/
def validateOrigin (origin : Option String) : Bool :=
  match origin with
  | none => true
  | some o =>
    if o = "" then true
    else jsStartsWith o "chrome-extension://"

theorem jsStartsWith_eq_true_iff (s pre : String) :
    jsStartsWith s pre = true ↔ ∃ rest : String, s = pre ++ rest := by
  constructor
  · intro h
    have hp : pre.data <+: s.data := by
      simpa [jsStartsWith] using h
    obtain ⟨t, ht⟩ := hp
    refine ⟨String.mk t, ?_⟩
    apply String.ext
    simp [← ht]
  · rintro ⟨rest, rfl⟩
    simp [jsStartsWith]

/-- C5: validateOrigin is a strict allowlist.  It returns true exactly for an
absent origin, the empty origin, or an origin beginning with the extension
scheme chrome-extension://, and in particular returns false for every http,
https and file origin. -/
theorem validateOrigin_allowlist :
    (∀ o : Option String, validateOrigin o = true ↔
      (o = none ∨ o = some "" ∨
        ∃ rest : String, o = some ("chrome-extension://" ++ rest)))
    ∧ (∀ s : String, validateOrigin (some ("http://" ++ s)) = false)
    ∧ (∀ s : String, validateOrigin (some ("https://" ++ s)) = false)
    ∧ (∀ s : String, validateOrigin (some ("file://" ++ s)) = false) := by
  refine ⟨?_, ?_, ?_, ?_⟩
  · intro o
    cases o with
    | none => simp [validateOrigin]
    | some s =>
      by_cases h : s = ""
      · subst h
        simp [validateOrigin]
      · simp [validateOrigin, h, jsStartsWith_eq_true_iff]
  · intro s
    rfl
  · intro s
    rfl
  · intro s
    rfl

/-! ## ws-server.ts: connection, tool cache and pending-call state

The server closes over: the cached tools array, the single extension
WebSocket slot, and the pendingCalls map (callId to pending entry; the entry
keeps the tool name in the current code).  Connections are named by numeric
ids; the extensionWs slot holds at most one of them by construction, which is
the single-active-connection representation in the source. -/

/-- Call outcome as delivered to the executeTool caller: the promise either
resolves with the tool result frame or rejects with an error message. -/
inductive Outcome where
  | resolved (r : ToolResultMessage)
  | rejected (reason : String)

/-- The ws-server closure state. -/
structure SrvState where
  tools : List ToolSchema
  active : Option Nat
  pending : List (String × String)

/-- TOOL_CALL_TIMEOUT_MS from cli/src/ws-server.ts. -/
def TOOL_CALL_TIMEOUT_MS : Nat := 30000

/-- The rejection message built by the executeTool timeout callback. -/
def timeoutMsg (name : String) : String :=
  "Tool call \"" ++ name ++ "\" timed out after 30000ms"

/-- clearPendingCalls from ws-server.ts: reject every pending call with the
given reason (the map is emptied by the caller's state update). -/
def clearPendingCalls (pending : List (String × String)) (reason : String) :
    List (String × Outcome) :=
  pending.map (fun p => (p.1, Outcome.rejected reason))

/-- One step output: the new closure state, the outcomes delivered to
executeTool callers during the step, and the close commands issued to
replaced sockets as (connection id, close code, close reason). -/
structure StepOut where
  state : SrvState
  outcomes : List (String × Outcome)
  closes : List (Nat × Nat × String)

/-- Events the ws-server reacts to: an inbound frame on the active socket, an
executeTool dispatch that passed the open-connection check, a pending-call
timer firing, a socket close event, a new authenticated connection, and
server shutdown. -/
inductive SrvEvent where
  | frame (f : Frame)
  | dispatch (callId : String) (name : String)
  | timerFire (callId : String)
  | closeWs (connId : Nat)
  | newConn (connId : Nat)
  | shutdown

/-- The ws.on message handler branch for isRegisterTools: cache the pushed
tool list; pending calls are deliberately not rejected. -/
def handleRegisterTools (s : SrvState) (ts : List ToolSchema) : StepOut :=
  ⟨{ s with tools := ts }, [], []⟩

/-- The ws.on message handler branch for isToolResult: resolve the matching
pending call if one exists, otherwise do nothing. -/
def handleToolResult (s : SrvState) (r : ToolResultMessage) : StepOut :=
  match lookupKey s.pending r.callId with
  | some _ =>
      ⟨{ s with pending := eraseKey s.pending r.callId },
        [(r.callId, Outcome.resolved r)], []⟩
  | none => ⟨s, [], []⟩

/-- The body of executeTool after its open-connection check: register the
pending entry under a fresh callId and send the execute_tool frame. -/
def dispatchCall (s : SrvState) (callId name : String) : StepOut :=
  if s.active.isSome then
    ⟨{ s with pending := setKey s.pending callId name }, [], []⟩
  else ⟨s, [], []⟩

/-- The setTimeout callback of executeTool: delete the pending entry and
reject with the timeout message.  The timer is alive exactly while the entry
is pending (every resolution path calls clearTimeout), so a firing timer
finds its entry; a fire for a settled call is a no-op at the promise layer. -/
def fireTimeout (s : SrvState) (callId : String) : StepOut :=
  match lookupKey s.pending callId with
  | some name =>
      ⟨{ s with pending := eraseKey s.pending callId },
        [(callId, Outcome.rejected (timeoutMsg name))], []⟩
  | none => ⟨s, [], []⟩

/-- The ws.on close handler: only the active socket's close resets the slot,
rejects all pending calls with "extension disconnected", and keeps the
cached tools (the current code deliberately does not clear them). -/
def handleClose (s : SrvState) (connId : Nat) : StepOut :=
  if s.active = some connId then
    ⟨{ tools := s.tools, active := none, pending := [] },
      clearPendingCalls s.pending "extension disconnected", []⟩
  else ⟨s, [], []⟩

/-- The wss.on connection handler: if a connection is already active, close
it with code 1000 and reason "replaced" and reject its pending calls with
"extension replaced"; then the new socket becomes the active one. -/
def handleConnection (s : SrvState) (connId : Nat) : StepOut :=
  match s.active with
  | some old =>
      ⟨{ tools := s.tools, active := some connId, pending := [] },
        clearPendingCalls s.pending "extension replaced", [(old, 1000, "replaced")]⟩
  | none => ⟨{ s with active := some connId }, [], []⟩

/-- The close() shutdown path: reject all pending calls with "server
shutting down" and terminate the sockets. -/
def handleShutdown (s : SrvState) : StepOut :=
  ⟨{ tools := s.tools, active := none, pending := [] },
    clearPendingCalls s.pending "server shutting down", []⟩

/-- One event step of the ws-server. -/
def step (s : SrvState) : SrvEvent → StepOut
  | SrvEvent.frame (Frame.registerTools ts) => handleRegisterTools s ts
  | SrvEvent.frame Frame.toolsChanged => ⟨s, [], []⟩
  | SrvEvent.frame (Frame.toolsList _ _) => ⟨s, [], []⟩
  | SrvEvent.frame (Frame.toolResult r) => handleToolResult s r
  | SrvEvent.frame Frame.ignored => ⟨s, [], []⟩
  | SrvEvent.dispatch callId name => dispatchCall s callId name
  | SrvEvent.timerFire callId => fireTimeout s callId
  | SrvEvent.closeWs connId => handleClose s connId
  | SrvEvent.newConn connId => handleConnection s connId
  | SrvEvent.shutdown => handleShutdown s

/-- Run a sequence of events, collecting all delivered outcomes in order. -/
def run (s : SrvState) : List SrvEvent → SrvState × List (String × Outcome)
  | [] => (s, [])
  | e :: es =>
      let o := step s e
      let rest := run o.state es
      (rest.1, o.outcomes ++ rest.2)

/-- The outcomes delivered for one callId. -/
def outcomesFor (c : String) (l : List (String × Outcome)) : List (String × Outcome) :=
  l.filter (fun p => decide (p.1 = c))

/-- The pendingCalls key list stays duplicate-free, as for a JS Map. -/
def PendingNodup (s : SrvState) : Prop :=
  (keysOf s.pending).Nodup

/-- No dispatch event for the given callId occurs in the event list; the
callIds minted by randomUUID in executeTool are fresh, so a trace never
dispatches the same callId twice. -/
def NoDispatchFor (c : String) (events : List SrvEvent) : Prop :=
  ∀ n, SrvEvent.dispatch c n ∉ events

theorem outcomesFor_append (c : String) (a b : List (String × Outcome)) :
    outcomesFor c (a ++ b) = outcomesFor c a ++ outcomesFor c b := by
  simp [outcomesFor]

theorem outcomesFor_clear_of_none (m : List (String × String)) (reason c : String)
    (h : lookupKey m c = none) :
    outcomesFor c (clearPendingCalls m reason) = [] := by
  rw [lookupKey_eq_none_iff] at h
  induction m with
  | nil => rfl
  | cons p rest ih =>
    rw [keysOf_cons, List.mem_cons] at h
    push_neg at h
    have hp : ¬ (p.1 = c) := fun hc => h.1 (Eq.symm hc)
    simp only [clearPendingCalls, List.map_cons, outcomesFor, List.filter_cons]
    rw [decide_eq_false hp]
    simpa [outcomesFor, clearPendingCalls] using ih h.2

theorem outcomesFor_clear_of_some (m : List (String × String)) (reason c : String)
    (hnd : (keysOf m).Nodup) (h : lookupKey m c ≠ none) :
    outcomesFor c (clearPendingCalls m reason) = [(c, Outcome.rejected reason)] := by
  induction m with
  | nil => exact absurd rfl h
  | cons p rest ih =>
    rw [keysOf_cons, List.nodup_cons] at hnd
    by_cases hp : p.1 = c
    · have hrest : lookupKey rest c = none := by
        rw [lookupKey_eq_none_iff]
        exact hp ▸ hnd.1
      simp only [clearPendingCalls, List.map_cons, outcomesFor, List.filter_cons]
      rw [decide_eq_true hp, hp]
      simpa [outcomesFor, clearPendingCalls] using
        outcomesFor_clear_of_none rest reason c hrest
    · rw [lookupKey, if_neg hp] at h
      simp only [clearPendingCalls, List.map_cons, outcomesFor, List.filter_cons]
      rw [decide_eq_false hp]
      simpa [outcomesFor, clearPendingCalls] using ih hnd.2 h

theorem step_pendingNodup (s : SrvState) (e : SrvEvent) (hnd : PendingNodup s) :
    PendingNodup (step s e).state := by
  cases e with
  | frame f =>
    cases f with
    | registerTools ts => exact hnd
    | toolsChanged => exact hnd
    | toolsList rid ts => exact hnd
    | toolResult r =>
      simp only [step, handleToolResult]
      cases hr : lookupKey s.pending r.callId with
      | none => exact hnd
      | some v => exact nodup_keysOf_eraseKey _ _ hnd
    | ignored => exact hnd
  | dispatch callId name =>
    simp only [step, dispatchCall]
    by_cases ha : s.active.isSome
    · simp only [ha, if_pos]
      exact nodup_keysOf_setKey _ _ _ hnd
    · simp only [ha, if_neg]
      exact hnd
  | timerFire callId =>
    simp only [step, fireTimeout]
    cases hr : lookupKey s.pending callId with
    | none => exact hnd
    | some v => exact nodup_keysOf_eraseKey _ _ hnd
  | closeWs connId =>
    simp only [step, handleClose]
    by_cases ha : s.active = some connId
    · simp only [ha, if_pos]
      simp [PendingNodup, keysOf]
    · simp only [ha, if_neg]
      exact hnd
  | newConn connId =>
    simp only [step, handleConnection]
    cases s.active with
    | some old => simp [PendingNodup, keysOf]
    | none => exact hnd
  | shutdown => simp [step, handleShutdown, PendingNodup, keysOf]

theorem step_of_lookup_none (s : SrvState) (e : SrvEvent) (c : String)
    (h : lookupKey s.pending c = none) (hd : ∀ n, e ≠ SrvEvent.dispatch c n) :
    lookupKey (step s e).state.pending c = none ∧
      outcomesFor c (step s e).outcomes = [] := by
  cases e with
  | frame f =>
    cases f with
    | registerTools ts => exact ⟨h, rfl⟩
    | toolsChanged => exact ⟨h, rfl⟩
    | toolsList rid ts => exact ⟨h, rfl⟩
    | toolResult r =>
      simp only [step, handleToolResult]
      cases hr : lookupKey s.pending r.callId with
      | none => exact ⟨h, rfl⟩
      | some v =>
        have hne : r.callId ≠ c := by
          intro hc
          rw [hc] at hr
          rw [h] at hr
          exact Option.noConfusion hr
        constructor
        · rw [lookupKey_eraseKey_ne s.pending r.callId c (fun hc => hne (Eq.symm hc))]
          exact h
        · simp [outcomesFor, hne]
    | ignored => exact ⟨h, rfl⟩
  | dispatch c' n' =>
    have hne : c' ≠ c := by
      intro hc
      exact (hd n') (by rw [hc])
    simp only [step, dispatchCall]
    by_cases ha : s.active.isSome
    · simp only [ha, if_pos]
      constructor
      · rw [lookupKey_setKey_ne s.pending c' c n' (fun hc => hne (Eq.symm hc))]
        exact h
      · rfl
    · simp only [ha, if_neg]
      exact ⟨h, rfl⟩
  | timerFire c' =>
    simp only [step, fireTimeout]
    cases hr : lookupKey s.pending c' with
    | none => exact ⟨h, rfl⟩
    | some v =>
      have hne : c' ≠ c := by
        intro hc
        rw [hc, h] at hr
        exact Option.noConfusion hr
      constructor
      · rw [lookupKey_eraseKey_ne s.pending c' c (fun hc => hne (Eq.symm hc))]
        exact h
      · simp [outcomesFor, hne]
  | closeWs connId =>
    simp only [step, handleClose]
    by_cases ha : s.active = some connId
    · simp only [ha, if_pos]
      exact ⟨rfl, outcomesFor_clear_of_none s.pending _ c h⟩
    · simp only [ha, if_neg]
      exact ⟨h, rfl⟩
  | newConn connId =>
    simp only [step, handleConnection]
    cases s.active with
    | some old => exact ⟨rfl, outcomesFor_clear_of_none s.pending _ c h⟩
    | none => exact ⟨h, rfl⟩
  | shutdown =>
    exact ⟨rfl, outcomesFor_clear_of_none s.pending _ c h⟩

theorem run_cons (s : SrvState) (e : SrvEvent) (es : List SrvEvent) :
    run s (e :: es) =
      ((run (step s e).state es).1, (step s e).outcomes ++ (run (step s e).state es).2) := rfl

theorem run_append (s : SrvState) (a b : List SrvEvent) :
    run s (a ++ b) =
      ((run (run s a).1 b).1, (run s a).2 ++ (run (run s a).1 b).2) := by
  induction a generalizing s with
  | nil => simp [run]
  | cons e es ih =>
    rw [List.cons_append, run_cons, run_cons, ih]
    simp [run_cons, List.append_assoc]

theorem run_pendingNodup (s : SrvState) (events : List SrvEvent) (hnd : PendingNodup s) :
    PendingNodup (run s events).1 := by
  induction events generalizing s with
  | nil => exact hnd
  | cons e es ih =>
    rw [run_cons]
    exact ih _ (step_pendingNodup s e hnd)

theorem run_of_lookup_none (s : SrvState) (events : List SrvEvent) (c : String)
    (h : lookupKey s.pending c = none) (hd : NoDispatchFor c events) :
    lookupKey (run s events).1.pending c = none ∧
      outcomesFor c (run s events).2 = [] := by
  induction events generalizing s with
  | nil => exact ⟨h, rfl⟩
  | cons e es ih =>
    have hde : ∀ n, e ≠ SrvEvent.dispatch c n := by
      intro n he
      exact hd n (by rw [← he]; exact List.mem_cons_self e es)
    obtain ⟨h1, h2⟩ := step_of_lookup_none s e c h hde
    have hd' : NoDispatchFor c es := fun n hn => hd n (List.mem_cons_of_mem _ hn)
    obtain ⟨h3, h4⟩ := ih _ h1 hd'
    rw [run_cons]
    refine ⟨h3, ?_⟩
    rw [outcomesFor_append, h2, h4]
    rfl

/-- The settling invariant for one callId: either the call is still pending
and no outcome has been delivered, or it has settled and exactly one outcome
has been delivered. -/
def Settled (c : String) (s : SrvState) (cnt : Nat) : Prop :=
  (lookupKey s.pending c ≠ none ∧ cnt = 0) ∨ (lookupKey s.pending c = none ∧ cnt = 1)

theorem step_settled (s : SrvState) (e : SrvEvent) (c : String) (cnt : Nat)
    (hnd : PendingNodup s) (hs : Settled c s cnt) (hd : ∀ n, e ≠ SrvEvent.dispatch c n) :
    Settled c (step s e).state (cnt + (outcomesFor c (step s e).outcomes).length) := by
  rcases hs with ⟨hpend, rfl⟩ | ⟨hnone, rfl⟩
  · cases e with
    | frame f =>
      cases f with
      | registerTools ts => exact Or.inl ⟨hpend, rfl⟩
      | toolsChanged => exact Or.inl ⟨hpend, rfl⟩
      | toolsList rid ts => exact Or.inl ⟨hpend, rfl⟩
      | toolResult r =>
        simp only [step, handleToolResult]
        cases hr : lookupKey s.pending r.callId with
        | none => exact Or.inl ⟨hpend, rfl⟩
        | some v =>
          by_cases hcc : r.callId = c
          · subst hcc
            refine Or.inr ⟨lookupKey_eraseKey_self s.pending r.callId, ?_⟩
            simp [outcomesFor]
          · refine Or.inl ⟨?_, ?_⟩
            · rw [lookupKey_eraseKey_ne s.pending r.callId c (fun hc => hcc (Eq.symm hc))]
              exact hpend
            · simp [outcomesFor, hcc]
      | ignored => exact Or.inl ⟨hpend, rfl⟩
    | dispatch c' n' =>
      have hne : c' ≠ c := by
        intro hc
        exact (hd n') (by rw [hc])
      simp only [step, dispatchCall]
      by_cases ha : s.active.isSome
      · simp only [ha, if_pos]
        refine Or.inl ⟨?_, rfl⟩
        rw [lookupKey_setKey_ne s.pending c' c n' (fun hc => hne (Eq.symm hc))]
        exact hpend
      · simp only [ha, if_neg]
        exact Or.inl ⟨hpend, rfl⟩
    | timerFire c' =>
      simp only [step, fireTimeout]
      by_cases hcc : c' = c
      · subst hcc
        cases hr : lookupKey s.pending c' with
        | none => exact absurd hr hpend
        | some name =>
          refine Or.inr ⟨lookupKey_eraseKey_self s.pending c', ?_⟩
          simp [outcomesFor]
      · cases hr : lookupKey s.pending c' with
        | none => exact Or.inl ⟨hpend, rfl⟩
        | some name =>
          refine Or.inl ⟨?_, ?_⟩
          · rw [lookupKey_eraseKey_ne s.pending c' c (fun hc => hcc (Eq.symm hc))]
            exact hpend
          · simp [outcomesFor, hcc]
    | closeWs connId =>
      simp only [step, handleClose]
      by_cases ha : s.active = some connId
      · simp only [ha, if_pos]
        refine Or.inr ⟨rfl, ?_⟩
        rw [outcomesFor_clear_of_some s.pending _ c hnd hpend]
        rfl
      · simp only [ha, if_neg]
        exact Or.inl ⟨hpend, rfl⟩
    | newConn connId =>
      simp only [step, handleConnection]
      cases s.active with
      | some old =>
        refine Or.inr ⟨rfl, ?_⟩
        rw [outcomesFor_clear_of_some s.pending _ c hnd hpend]
        rfl
      | none => exact Or.inl ⟨hpend, rfl⟩
    | shutdown =>
      simp only [step, handleShutdown]
      refine Or.inr ⟨rfl, ?_⟩
      rw [outcomesFor_clear_of_some s.pending _ c hnd hpend]
      rfl
  · obtain ⟨h1, h2⟩ := step_of_lookup_none s e c hnone hd
    rw [h2]
    exact Or.inr ⟨h1, rfl⟩

theorem run_settled (s : SrvState) (events : List SrvEvent) (c : String) (cnt : Nat)
    (hnd : PendingNodup s) (hs : Settled c s cnt) (hd : NoDispatchFor c events) :
    Settled c (run s events).1 (cnt + (outcomesFor c (run s events).2).length) := by
  induction events generalizing s cnt with
  | nil => simpa [run, outcomesFor] using hs
  | cons e es ih =>
    have hde : ∀ n, e ≠ SrvEvent.dispatch c n := by
      intro n he
      exact hd n (by rw [← he]; exact List.mem_cons_self e es)
    have hd' : NoDispatchFor c es := fun n hn => hd n (List.mem_cons_of_mem _ hn)
    have h1 := step_settled s e c cnt hnd hs hde
    have h2 := ih (step s e).state (cnt + (outcomesFor c (step s e).outcomes).length)
      (step_pendingNodup s e hnd) h1 hd'
    rw [run_cons]
    simpa [outcomesFor_append, Nat.add_assoc] using h2

theorem settled_timer_step (s : SrvState) (c : String) (cnt : Nat)
    (hs : Settled c s cnt) :
    lookupKey (step s (SrvEvent.timerFire c)).state.pending c = none ∧
      cnt + (outcomesFor c (step s (SrvEvent.timerFire c)).outcomes).length = 1 := by
  rcases hs with ⟨hpend, rfl⟩ | ⟨hnone, rfl⟩
  · simp only [step, fireTimeout]
    cases hr : lookupKey s.pending c with
    | none => exact absurd hr hpend
    | some name =>
      refine ⟨lookupKey_eraseKey_self s.pending c, ?_⟩
      simp [outcomesFor]
  · simp only [step, fireTimeout, hnone]
    exact ⟨trivial, by simp [outcomesFor]⟩

theorem run_settled_fires (s : SrvState) (post : List SrvEvent) (c : String) (cnt : Nat)
    (hnd : PendingNodup s) (hs : Settled c s cnt) (hd : NoDispatchFor c post)
    (hmem : SrvEvent.timerFire c ∈ post) :
    cnt + (outcomesFor c (run s post).2).length = 1 := by
  induction post generalizing s cnt with
  | nil => exact absurd hmem (List.not_mem_nil _)
  | cons e es ih =>
    have hde : ∀ n, e ≠ SrvEvent.dispatch c n := by
      intro n he
      exact hd n (by rw [← he]; exact List.mem_cons_self e es)
    have hd' : NoDispatchFor c es := fun n hn => hd n (List.mem_cons_of_mem _ hn)
    by_cases he : e = SrvEvent.timerFire c
    · subst he
      obtain ⟨h1, h2⟩ := settled_timer_step s c cnt hs
      obtain ⟨h3, h4⟩ := run_of_lookup_none _ es c h1 hd'
      rw [run_cons, outcomesFor_append, h4, List.append_nil]
      exact h2
    · have hmem' : SrvEvent.timerFire c ∈ es := by
        rcases List.mem_cons.mp hmem with h | h
        · exact absurd (Eq.symm h) he
        · exact h
      have h1 := step_settled s e c cnt hnd hs hde
      have h2 := ih (step s e).state (cnt + (outcomesFor c (step s e).outcomes).length)
        (step_pendingNodup s e hnd) h1 hd' hmem'
      rw [run_cons]
      simpa [outcomesFor_append, Nat.add_assoc] using h2

theorem step_dispatch_outcomes (s : SrvState) (c n : String) :
    (step s (SrvEvent.dispatch c n)).outcomes = [] := by
  simp only [step, dispatchCall]
  split <;> rfl

theorem run_dispatch_decomp (s : SrvState) (pre post : List SrvEvent) (c n : String)
    (h : lookupKey s.pending c = none) (hdpre : NoDispatchFor c pre) :
    (outcomesFor c (run s (pre ++ SrvEvent.dispatch c n :: post)).2).length =
      (outcomesFor c
        (run (step (run s pre).1 (SrvEvent.dispatch c n)).state post).2).length := by
  rw [run_append, run_cons]
  simp only [outcomesFor_append]
  rw [(run_of_lookup_none s pre c h hdpre).2, step_dispatch_outcomes]
  simp [outcomesFor]

/-- The ws-server accessor getTools: returns the cached tools array. -/
def getTools (s : SrvState) : List ToolSchema := s.tools

/-- The ws-server accessor isExtensionConnected: whether the single extension
socket slot holds an open connection. -/
def isExtensionConnected (s : SrvState) : Bool := s.active.isSome

/-- C1: for every callId created by executeTool, at most one outcome is ever
delivered, and exactly one once the call timer fires (the timer is armed at
dispatch, so every dispatched call settles); a tool_result frame whose callId
is not pending, in particular a duplicate of an already settled call or an
unknown callId, leaves the state unchanged and delivers nothing. -/
theorem c1_single_outcome_per_call :
    (∀ (s : SrvState) (r : ToolResultMessage),
        lookupKey s.pending r.callId = none →
        step s (SrvEvent.frame (Frame.toolResult r)) = ⟨s, [], []⟩)
    ∧ (∀ (s : SrvState) (pre post : List SrvEvent) (c n : String),
        PendingNodup s → lookupKey s.pending c = none →
        NoDispatchFor c pre → NoDispatchFor c post →
        (outcomesFor c (run s (pre ++ SrvEvent.dispatch c n :: post)).2).length ≤ 1)
    ∧ (∀ (s : SrvState) (pre post : List SrvEvent) (c n : String),
        PendingNodup s → lookupKey s.pending c = none →
        NoDispatchFor c pre → NoDispatchFor c post →
        (run s pre).1.active.isSome = true →
        SrvEvent.timerFire c ∈ post →
        (outcomesFor c (run s (pre ++ SrvEvent.dispatch c n :: post)).2).length = 1) := by
  refine ⟨?_, ?_, ?_⟩
  · intro s r h
    simp [step, handleToolResult, h]
  · intro s pre post c n hnd h hdpre hdpost
    rw [run_dispatch_decomp s pre post c n h hdpre]
    have hn1 := (run_of_lookup_none s pre c h hdpre).1
    have hnd1 := run_pendingNodup s pre hnd
    by_cases ha : (run s pre).1.active.isSome
    · have hsome : lookupKey (step (run s pre).1 (SrvEvent.dispatch c n)).state.pending c =
          some n := by
        simp only [step, dispatchCall, ha, if_pos]
        exact lookupKey_setKey_self _ c n
      have hnd2 := step_pendingNodup (run s pre).1 (SrvEvent.dispatch c n) hnd1
      have hsettled : Settled c (step (run s pre).1 (SrvEvent.dispatch c n)).state 0 :=
        Or.inl ⟨by rw [hsome]; exact fun hc => Option.noConfusion hc, rfl⟩
      have h2 := run_settled _ post c 0 hnd2 hsettled hdpost
      rcases h2 with ⟨_, h2⟩ | ⟨_, h2⟩
      · omega
      · omega
    · have hstate : (step (run s pre).1 (SrvEvent.dispatch c n)).state = (run s pre).1 := by
        simp only [step, dispatchCall]
        rw [if_neg ha]
      rw [hstate, (run_of_lookup_none _ post c hn1 hdpost).2]
      simp
  · intro s pre post c n hnd h hdpre hdpost ha htimer
    rw [run_dispatch_decomp s pre post c n h hdpre]
    have hn1 := (run_of_lookup_none s pre c h hdpre).1
    have hnd1 := run_pendingNodup s pre hnd
    have hsome : lookupKey (step (run s pre).1 (SrvEvent.dispatch c n)).state.pending c =
        some n := by
      simp only [step, dispatchCall, ha, if_pos]
      exact lookupKey_setKey_self _ c n
    have hnd2 := step_pendingNodup (run s pre).1 (SrvEvent.dispatch c n) hnd1
    have hsettled : Settled c (step (run s pre).1 (SrvEvent.dispatch c n)).state 0 :=
      Or.inl ⟨by rw [hsome]; exact fun hc => Option.noConfusion hc, rfl⟩
    have h2 := run_settled_fires _ post c 0 hnd2 hsettled hdpost htimer
    omega

/-- Concrete state for the C1 witness: empty cache, one active socket, no
pending calls. -/
def c1ExampleState : SrvState := ⟨[], some 0, []⟩

/-- Concrete tool result frame for the C1 witness. -/
def c1ExampleResult : ToolResultMessage := ⟨"c1", none, none, false⟩

/-- Concrete post-dispatch events for the C1 witness: a matching result, a
duplicate of it, then the call timer firing. -/
def c1ExamplePost : List SrvEvent :=
  [SrvEvent.frame (Frame.toolResult c1ExampleResult),
   SrvEvent.frame (Frame.toolResult c1ExampleResult),
   SrvEvent.timerFire "c1"]

/-- Witness for C1 at a concrete trace: dispatch, then result plus duplicate
plus timer fire deliver exactly one outcome. -/
theorem c1_single_outcome_witness :
    (outcomesFor "c1"
      (run c1ExampleState ([] ++ SrvEvent.dispatch "c1" "t" :: c1ExamplePost)).2).length = 1 :=
  c1_single_outcome_per_call.2.2 c1ExampleState [] c1ExamplePost "c1" "t"
    (by simp [PendingNodup, c1ExampleState, keysOf]) rfl
    (fun m hm => absurd hm (List.not_mem_nil _))
    (by intro m; simp [c1ExamplePost])
    rfl
    (by simp [c1ExamplePost])

/-- C3: when a new authenticated connection is accepted while one is active,
the previous socket is closed with code 1000 and reason "replaced", every
pending call is rejected with the replacement disconnect error, the pending
map is emptied, and the new socket becomes the single active one (the state
holds one active slot, so at most one connection is ever active). -/
theorem c3_replacement_closes_previous (s : SrvState) (old connId : Nat)
    (h : s.active = some old) :
    step s (SrvEvent.newConn connId) =
      ⟨⟨s.tools, some connId, []⟩,
        clearPendingCalls s.pending "extension replaced", [(old, 1000, "replaced")]⟩
    ∧ ∀ p ∈ s.pending,
        (p.1, Outcome.rejected "extension replaced") ∈
          (step s (SrvEvent.newConn connId)).outcomes := by
  constructor
  · simp [step, handleConnection, h]
  · intro p hp
    simp only [step, handleConnection, h, clearPendingCalls]
    exact List.mem_map_of_mem _ hp

/-- Witness for C3: replacing active socket 5 while call "a" is pending. -/
theorem c3_replacement_witness :
    step ⟨[], some 5, [("a", "t")]⟩ (SrvEvent.newConn 6) =
      ⟨⟨[], some 6, []⟩, [("a", Outcome.rejected "extension replaced")],
        [(5, 1000, "replaced")]⟩ :=
  (c3_replacement_closes_previous ⟨[], some 5, [("a", "t")]⟩ 5 6 rfl).1

/-- C4: when the active socket closes, every pending call is rejected with
"extension disconnected" and the cached tool catalog is kept unchanged, so
getTools returns the same list before and after the disconnect. -/
theorem c4_disconnect_keeps_tools (s : SrvState) (connId : Nat)
    (h : s.active = some connId) :
    step s (SrvEvent.closeWs connId) =
      ⟨⟨s.tools, none, []⟩, clearPendingCalls s.pending "extension disconnected", []⟩
    ∧ getTools (step s (SrvEvent.closeWs connId)).state = getTools s
    ∧ ∀ p ∈ s.pending,
        (p.1, Outcome.rejected "extension disconnected") ∈
          (step s (SrvEvent.closeWs connId)).outcomes := by
  refine ⟨?_, ?_, ?_⟩
  · simp [step, handleClose, h]
  · simp [step, handleClose, h, getTools]
  · intro p hp
    simp only [step, handleClose, h, if_pos, clearPendingCalls]
    exact List.mem_map_of_mem _ hp

/-- Witness for C4: socket 3 closes while tool list is nonempty and call "a"
is pending; the tools survive, the call is rejected. -/
theorem c4_disconnect_witness :
    step ⟨[⟨"search", "Search", JVal.obj []⟩], some 3, [("a", "search")]⟩
        (SrvEvent.closeWs 3) =
      ⟨⟨[⟨"search", "Search", JVal.obj []⟩], none, []⟩,
        [("a", Outcome.rejected "extension disconnected")], []⟩ :=
  (c4_disconnect_keeps_tools ⟨[⟨"search", "Search", JVal.obj []⟩], some 3, [("a", "search")]⟩
    3 rfl).1

/-! ## ws-server.ts: executeTool reconnection grace window -/

/-- WAIT_FOR_CONNECTION_POLL_MS from cli/src/ws-server.ts. -/
def WAIT_FOR_CONNECTION_POLL_MS : Nat := 200

/-- The setInterval loop inside waitForConnection: tick k happens at
200 * k ms after the call; a tick first checks whether the socket is open
(resolve true), then whether the deadline has passed (resolve false), and
otherwise waits for the next tick.  The fuel bounds the ticks actually
reachable before the deadline check fires. -/
def pollTicks (connAt : Nat → Bool) (timeoutMs : Nat) : Nat → Nat → Bool
  | 0, _ => false
  | Nat.succ fuel, k =>
      if connAt k then true
      else if timeoutMs ≤ WAIT_FOR_CONNECTION_POLL_MS * k then false
      else pollTicks connAt timeoutMs fuel (k + 1)

/-- waitForConnection from cli/src/ws-server.ts: immediately true if the
socket is open, else poll every 200 ms until the deadline.  connAt k is
whether the extension socket is open at poll tick k. -/
def waitForConnection (connectedNow : Bool) (connAt : Nat → Bool) (timeoutMs : Nat) : Bool :=
  if connectedNow then true
  else pollTicks connAt timeoutMs (timeoutMs / WAIT_FOR_CONNECTION_POLL_MS + 1) 1

/-- The entry check of executeTool: if no open connection, wait up to 5000 ms
for one; if that fails, throw "No extension connected"; otherwise proceed to
dispatch. -/
def executeToolGate (connectedNow : Bool) (connAt : Nat → Bool) : Except String Unit :=
  if connectedNow then Except.ok ()
  else if waitForConnection connectedNow connAt 5000 then Except.ok ()
  else Except.error "No extension connected"

theorem pollTicks_true_iff (connAt : Nat → Bool) :
    ∀ (fuel k0 : Nat), k0 ≤ 25 → 25 < k0 + fuel →
      (pollTicks connAt 5000 fuel k0 = true ↔
        ∃ k, k0 ≤ k ∧ k ≤ 25 ∧ connAt k = true) := by
  intro fuel
  induction fuel with
  | zero =>
    intro k0 h1 h2
    omega
  | succ fuel ih =>
    intro k0 h1 h2
    rw [pollTicks]
    cases hc : connAt k0 with
    | true =>
      simp only [if_pos rfl]
      constructor
      · intro _
        exact ⟨k0, Nat.le_refl k0, h1, hc⟩
      · intro _
        rfl
    | false =>
      rw [if_neg Bool.false_ne_true]
      by_cases hdl : 5000 ≤ WAIT_FOR_CONNECTION_POLL_MS * k0
      · rw [if_pos hdl]
        have hk25 : k0 = 25 := by
          simp only [WAIT_FOR_CONNECTION_POLL_MS] at hdl
          omega
        constructor
        · intro hfalse
          exact Bool.noConfusion hfalse
        · rintro ⟨k, hk1, hk2, hk3⟩
          have : k = k0 := by omega
          rw [this, hc] at hk3
          exact Bool.noConfusion hk3
      · rw [if_neg hdl]
        have hk25 : k0 < 25 := by
          simp only [WAIT_FOR_CONNECTION_POLL_MS] at hdl
          omega
        rw [ih (k0 + 1) (by omega) (by omega)]
        constructor
        · rintro ⟨k, hk1, hk2, hk3⟩
          exact ⟨k, by omega, hk2, hk3⟩
        · rintro ⟨k, hk1, hk2, hk3⟩
          refine ⟨k, ?_, hk2, hk3⟩
          by_cases hkk : k = k0
          · rw [hkk, hc] at hk3
            exact absurd hk3 (fun hx => Bool.noConfusion hx)
          · omega

theorem waitForConnection_5000_iff (connAt : Nat → Bool) :
    waitForConnection false connAt 5000 = true ↔
      ∃ k, 1 ≤ k ∧ k ≤ 25 ∧ connAt k = true := by
  have h5 : 5000 / WAIT_FOR_CONNECTION_POLL_MS + 1 = 26 := by norm_num [WAIT_FOR_CONNECTION_POLL_MS]
  show pollTicks connAt 5000 (5000 / WAIT_FOR_CONNECTION_POLL_MS + 1) 1 = true ↔ _
  rw [h5]
  exact pollTicks_true_iff connAt 26 1 (by omega) (by omega)

/-- C8: executeTool with no open connection does not fail immediately: it
polls every 200 ms for up to 5000 ms (tick 25 is at exactly 5000 ms) and
proceeds to dispatch exactly when the connection is open at some poll tick in
the window; it throws "No extension connected" exactly when the connection is
open at no tick of the window.  With an open connection it dispatches at
once. -/
theorem c8_reconnect_grace_window (connAt : Nat → Bool) :
    executeToolGate true connAt = Except.ok ()
    ∧ (executeToolGate false connAt = Except.ok () ↔
        ∃ k, 1 ≤ k ∧ k ≤ 25 ∧ connAt k = true)
    ∧ (executeToolGate false connAt = Except.error "No extension connected" ↔
        ∀ k, 1 ≤ k → k ≤ 25 → connAt k = false)
    ∧ WAIT_FOR_CONNECTION_POLL_MS * 25 = 5000 := by
  refine ⟨rfl, ?_, ?_, rfl⟩
  · show (if waitForConnection false connAt 5000 then Except.ok () else
      Except.error "No extension connected") = Except.ok () ↔ _
    rw [← waitForConnection_5000_iff connAt]
    cases hw : waitForConnection false connAt 5000 with
    | true => simp
    | false => simp
  · show (if waitForConnection false connAt 5000 then Except.ok () else
      Except.error "No extension connected") = Except.error "No extension connected" ↔ _
    cases hw : waitForConnection false connAt 5000 with
    | true =>
      simp only [if_pos rfl]
      constructor
      · intro hx
        exact Except.noConfusion hx
      · intro hall
        rw [waitForConnection_5000_iff connAt] at hw
        obtain ⟨k, hk1, hk2, hk3⟩ := hw
        rw [hall k hk1 hk2] at hk3
        exact Bool.noConfusion hk3
    | false =>
      rw [if_neg Bool.false_ne_true]
      constructor
      · intro _ k hk1 hk2
        cases hk3 : connAt k with
        | true =>
          have : waitForConnection false connAt 5000 = true :=
            (waitForConnection_5000_iff connAt).mpr ⟨k, hk1, hk2, hk3⟩
          rw [hw] at this
          exact Bool.noConfusion this
        | false => rfl
      · intro _
        rfl

/-! ## mcp-server.ts: the synthetic status tool -/

/-- The JSON object serialized by the webmcp-status branch of the tools/call
handler: connected flag, tool count, and the cached tool names under the
key tools. -/
def webmcpStatusPayload (connected : Bool) (tools : List ToolSchema) : JVal :=
  JVal.obj
    [("connected", JVal.bool connected),
     ("toolCount", JVal.num tools.length),
     ("tools", JVal.arr (tools.map (fun t => JVal.str t.name)))]

/-- What the tools/call handler does with a request: answer the status tool
locally, or forward the call to wsServer.executeTool. -/
inductive CallAction where
  | localStatus (payload : JVal)
  | forward (name : String) (args : JVal)

/-- The CallToolRequestSchema handler of cli/src/mcp-server.ts: the
webmcp-status name is answered locally from isExtensionConnected and
getTools; every other name is forwarded to executeTool. -/
def handleCallTool (s : SrvState) (name : String) (args : JVal) : CallAction :=
  if name = "webmcp-status" then
    CallAction.localStatus (webmcpStatusPayload (isExtensionConnected s) (getTools s))
  else CallAction.forward name args

/-- The top-level keys of a JSON object value. -/
def objKeys : JVal → List String
  | JVal.obj fields => fields.map Prod.fst
  | _ => []

/-- Counterexample for C6: the status payload's keys are connected,
toolCount and tools; there is no toolNames key, so the claimed payload shape
with a toolNames field is not what the handler produces. -/
theorem c6_status_payload_counterexample :
    handleCallTool ⟨[⟨"search", "Search", JVal.obj []⟩], some 0, []⟩ "webmcp-status"
        (JVal.obj []) =
      CallAction.localStatus
        (webmcpStatusPayload true [⟨"search", "Search", JVal.obj []⟩])
    ∧ objKeys (webmcpStatusPayload true [⟨"search", "Search", JVal.obj []⟩]) =
        ["connected", "toolCount", "tools"]
    ∧ "toolNames" ∉ objKeys (webmcpStatusPayload true [⟨"search", "Search", JVal.obj []⟩]) := by
  refine ⟨rfl, rfl, ?_⟩
  intro h
  simp [webmcpStatusPayload, objKeys] at h

/-- C6 amended: the webmcp-status call is answered locally, never forwarded
to the call router, with the payload keyed connected, toolCount and tools,
holding the connection flag, the aggregated tool count and the tool names;
any other tool name is forwarded. -/
theorem c6_status_tool_local (s : SrvState) (args : JVal) :
    handleCallTool s "webmcp-status" args =
      CallAction.localStatus
        (JVal.obj
          [("connected", JVal.bool (isExtensionConnected s)),
           ("toolCount", JVal.num (getTools s).length),
           ("tools", JVal.arr ((getTools s).map (fun t => JVal.str t.name)))])
    ∧ ∀ (name : String) (args2 : JVal), name ≠ "webmcp-status" →
        handleCallTool s name args2 = CallAction.forward name args2 := by
  constructor
  · rfl
  · intro name args2 h
    simp [handleCallTool, h]

/-- Witness for C6: the status branch at a concrete state, and a concrete
non-status name being forwarded. -/
theorem c6_status_tool_witness :
    handleCallTool ⟨[], none, []⟩ "search" (JVal.obj []) =
      CallAction.forward "search" (JVal.obj []) :=
  (c6_status_tool_local ⟨[], none, []⟩ (JVal.obj [])).2 "search" (JVal.obj [])
    (by decide)

/-! ## extension/background.js: tab registry and pending-call cancellation -/

/-- Models Map.prototype.has. -/
def hasKey {κ α : Type} [DecidableEq κ] (m : List (κ × α)) (c : κ) : Bool :=
  (lookupKey m c).isSome

/-- One record of the background tabs map: url, title and the tab's last
registered tools. -/
structure TabRecord where
  url : String
  title : String
  tools : List ToolSchema

/-- The background service worker state used by the tab lifecycle listeners:
the tabs map, the pendingCalls map from callId to target tabId, and whether
the WebSocket to the CLI is open. -/
structure BgState where
  tabs : List (Nat × TabRecord)
  pendingCalls : List (String × Nat)
  wsOpen : Bool

/-- The tool_result error frame the background sends when it cancels a call
because its tab started navigating. -/
def navErrorResult (callId : String) : ToolResultMessage :=
  ⟨callId, none, some "Page navigated during tool execution", true⟩

/-- Output of a background listener: the new state, the tool_result frames
sent immediately over the WebSocket, and whether a debounced aggregate
register_tools send was scheduled via sendToolsToServer. -/
structure BgOut where
  state : BgState
  sent : List ToolResultMessage
  scheduledToolsSend : Bool

/-- The chrome.tabs.onUpdated listener: when a known tab enters the loading
status, every pending call targeting that tab is answered with a navigation
error frame (sent only while the socket is open, but deleted from the map
unconditionally), the tab's tools are cleared in place, and a debounced
aggregate send is scheduled. -/
def onTabUpdated (s : BgState) (tabId : Nat) (status : String) : BgOut :=
  if status = "loading" ∧ hasKey s.tabs tabId = true then
    let cancelled := s.pendingCalls.filter (fun p => decide (p.2 = tabId))
    let sent := if s.wsOpen then cancelled.map (fun p => navErrorResult p.1) else []
    let remaining := s.pendingCalls.filter (fun p => decide (p.2 ≠ tabId))
    let tabs2 := match lookupKey s.tabs tabId with
      | some t => setKey s.tabs tabId ⟨t.url, t.title, []⟩
      | none => s.tabs
    ⟨⟨tabs2, remaining, s.wsOpen⟩, sent, true⟩
  else ⟨s, [], false⟩

/-- The chrome.tabs.onRemoved listener: a known tab is deleted from the map
and a debounced aggregate send is scheduled; pendingCalls is not touched and
no tool_result frame is sent. -/
def onTabRemoved (s : BgState) (tabId : Nat) : BgOut :=
  if hasKey s.tabs tabId = true then
    ⟨⟨eraseKey s.tabs tabId, s.pendingCalls, s.wsOpen⟩, [], true⟩
  else ⟨s, [], false⟩

/-- Concrete background state for the C2 counterexample: one tab with one
tool, one in-flight call dispatched to it, socket open. -/
def c2ExampleBg : BgState :=
  ⟨[(1, ⟨"https://a.example", "A", [⟨"search", "Search", JVal.obj []⟩]⟩)],
   [("call-1", 1)], true⟩

/-- Counterexample for C2: a tab beginning to navigate does fail the call
already dispatched to it — the onUpdated listener emits an error tool_result
for the pending call and removes it, so in-flight calls are not left intact
and navigation is a third way (besides disconnect and timeout) for a call to
be terminated. -/
theorem c2_navigation_cancels_counterexample :
    (onTabUpdated c2ExampleBg 1 "loading").sent = [navErrorResult "call-1"]
    ∧ (onTabUpdated c2ExampleBg 1 "loading").state.pendingCalls = []
    ∧ (navErrorResult "call-1").error = some "Page navigated during tool execution"
    ∧ (navErrorResult "call-1").isError = true := by
  refine ⟨rfl, rfl, rfl, rfl⟩

/-- C2 amended: on the CLI side a register_tools frame (the shape in which a
navigation's tool clearing reaches the server) leaves pending calls intact
and delivers no outcome, and a later tool_result still resolves the call;
but the extension background, when a tab begins navigating, cancels every
pending call routed to that tab by sending an error tool_result frame and
deleting the entries, so tab navigation also terminates in-flight calls, in
addition to connection loss and timeout. -/
theorem c2_navigation_tolerance :
    (∀ (s : SrvState) (ts : List ToolSchema),
        (step s (SrvEvent.frame (Frame.registerTools ts))).state.pending = s.pending
        ∧ (step s (SrvEvent.frame (Frame.registerTools ts))).outcomes = [])
    ∧ (∀ (s : SrvState) (r : ToolResultMessage) (n : String),
        lookupKey s.pending r.callId = some n →
        (step s (SrvEvent.frame (Frame.toolResult r))).outcomes =
          [(r.callId, Outcome.resolved r)])
    ∧ (∀ (s : BgState) (tabId : Nat),
        hasKey s.tabs tabId = true →
        (onTabUpdated s tabId "loading").state.pendingCalls =
          s.pendingCalls.filter (fun p => decide (p.2 ≠ tabId))
        ∧ (onTabUpdated s tabId "loading").sent =
            (if s.wsOpen then
              (s.pendingCalls.filter (fun p => decide (p.2 = tabId))).map
                (fun p => navErrorResult p.1)
            else [])) := by
  refine ⟨?_, ?_, ?_⟩
  · intro s ts
    exact ⟨rfl, rfl⟩
  · intro s r n h
    simp [step, handleToolResult, h]
  · intro s tabId h
    constructor
    · simp [onTabUpdated, h]
    · simp [onTabUpdated, h]

/-- Witness for C2: re-registration does not disturb a concrete pending
call, and the later result frame resolves it. -/
theorem c2_navigation_witness :
    (step ⟨[], some 0, [("c2", "t")]⟩
        (SrvEvent.frame (Frame.toolResult ⟨"c2", some (JVal.str "ok"), none, false⟩))).outcomes =
      [("c2", Outcome.resolved ⟨"c2", some (JVal.str "ok"), none, false⟩)] :=
  c2_navigation_tolerance.2.1 ⟨[], some 0, [("c2", "t")]⟩
    ⟨"c2", some (JVal.str "ok"), none, false⟩ "t" rfl

/-- C10: permanently closing a tab removes its record and schedules an
aggregate re-send but sends no tool_result frame and leaves pendingCalls
untouched; on the CLI side an outcome for a pending call can only be
delivered by a matching tool_result frame, its timer firing, a socket close,
a replacement connection or shutdown — so with no result frame coming, such
a call ends only through the 30000 ms timeout or connection loss. -/
theorem c10_tab_removal_no_cancel (s : BgState) (tabId : Nat)
    (h : hasKey s.tabs tabId = true) :
    onTabRemoved s tabId =
      ⟨⟨eraseKey s.tabs tabId, s.pendingCalls, s.wsOpen⟩, [], true⟩
    ∧ (∀ (s2 : SrvState) (e : SrvEvent) (c : String) (o : Outcome),
        (c, o) ∈ (step s2 e).outcomes →
          (∃ r : ToolResultMessage,
              e = SrvEvent.frame (Frame.toolResult r) ∧ r.callId = c)
          ∨ e = SrvEvent.timerFire c
          ∨ (∃ id, e = SrvEvent.closeWs id)
          ∨ (∃ id, e = SrvEvent.newConn id)
          ∨ e = SrvEvent.shutdown)
    ∧ TOOL_CALL_TIMEOUT_MS = 30000 := by
  refine ⟨by simp [onTabRemoved, h], ?_, rfl⟩
  intro s2 e c o hmem
  cases e with
  | frame f =>
    cases f with
    | registerTools ts => exact absurd hmem (List.not_mem_nil _)
    | toolsChanged => exact absurd hmem (List.not_mem_nil _)
    | toolsList rid ts => exact absurd hmem (List.not_mem_nil _)
    | toolResult r =>
      simp only [step, handleToolResult] at hmem
      cases hr : lookupKey s2.pending r.callId with
      | none =>
        rw [hr] at hmem
        exact absurd hmem (List.not_mem_nil _)
      | some v =>
        rw [hr] at hmem
        have hc : r.callId = c := by
          rcases List.mem_singleton.mp hmem with h2
          exact Eq.symm (congrArg Prod.fst h2)
        exact Or.inl ⟨r, rfl, hc⟩
    | ignored => exact absurd hmem (List.not_mem_nil _)
  | dispatch c2 n2 =>
    rw [step_dispatch_outcomes] at hmem
    exact absurd hmem (List.not_mem_nil _)
  | timerFire c2 =>
    simp only [step, fireTimeout] at hmem
    cases hr : lookupKey s2.pending c2 with
    | none =>
      rw [hr] at hmem
      exact absurd hmem (List.not_mem_nil _)
    | some v =>
      rw [hr] at hmem
      have hc : c2 = c := by
        rcases List.mem_singleton.mp hmem with h2
        exact Eq.symm (congrArg Prod.fst h2)
      exact Or.inr (Or.inl (by rw [hc]))
  | closeWs id => exact Or.inr (Or.inr (Or.inl ⟨id, rfl⟩))
  | newConn id => exact Or.inr (Or.inr (Or.inr (Or.inl ⟨id, rfl⟩)))
  | shutdown => exact Or.inr (Or.inr (Or.inr (Or.inr rfl)))

/-- Witness for C10: removing a concrete tab with an in-flight call leaves
the call pending and sends nothing. -/
theorem c10_tab_removal_witness :
    onTabRemoved ⟨[(7, ⟨"https://a.example", "A", []⟩)], [("c9", 7)], true⟩ 7 =
      ⟨⟨[], [("c9", 7)], true⟩, [], true⟩ :=
  (c10_tab_removal_no_cancel ⟨[(7, ⟨"https://a.example", "A", []⟩)], [("c9", 7)], true⟩
    7 rfl).1

/-! ## MAIN-world content script: ModelContext prototype interception -/

/-- A page-side tool descriptor, the single argument of registerTool: name,
description, input schema and the executable. -/
structure PageToolDescriptor where
  name : String
  description : String
  inputSchema : JVal
  execute : JVal → JVal

/-- The serialized form stored and broadcast by the interceptor: name,
description and schema only, never the executable. -/
def serializeDescriptor (d : PageToolDescriptor) : ToolSchema :=
  ⟨d.name, d.description, d.inputSchema⟩

/-- One toolMap entry of the content script: the serialized descriptor and
the executable. -/
structure MainToolEntry where
  serialized : ToolSchema
  execute : JVal → JVal

/-- The tools-changed broadcast payload: the serialized entries of the
current toolMap, in insertion order. -/
def broadcastTools (m : List (String × MainToolEntry)) : List ToolSchema :=
  m.map (fun p => p.2.serialized)

/-- What the registration surface seen by page code looks like after the
content script's install pass: no capability at all, the native capability
with wrapped prototype methods, or a no-op stand-in. -/
inductive RegistrationSurface where
  | absent
  | wrappedNative
  | standIn

/-- Result of running the content-main IIfe: whether the execute-tool
message listener was installed, the state of the registration surface, and
the tools-changed broadcasts emitted during installation. -/
structure ContentMainInstall where
  listenerInstalled : Bool
  surface : RegistrationSurface
  broadcasts : List (List ToolSchema)

/-- The content-main IIfe: bail out with nothing when the nonce attribute is
missing; otherwise install the message listener, then bail out (leaving the
surface absent and broadcasting nothing) when the ModelContext capability is
missing, and otherwise wrap the prototype methods.  Installation itself
emits no broadcast in either case. -/
def installContentMain (nonce : Option String) (mcPresent : Bool) : ContentMainInstall :=
  match nonce with
  | none => ⟨false, RegistrationSurface.absent, []⟩
  | some _ =>
      if mcPresent then ⟨true, RegistrationSurface.wrappedNative, []⟩
      else ⟨true, RegistrationSurface.absent, []⟩

/-- Counterexample for C7: with the capability entirely absent the
interceptor does not install a no-op stand-in and does not broadcast an
empty tool state — it returns early, leaving the surface absent and the
broadcast list empty. -/
theorem c7_no_standin_counterexample :
    (installContentMain (some "nonce") false).surface = RegistrationSurface.absent
    ∧ ¬ (installContentMain (some "nonce") false).surface = RegistrationSurface.standIn
    ∧ (installContentMain (some "nonce") false).broadcasts = [] := by
  refine ⟨rfl, ?_, rfl⟩
  intro h
  exact RegistrationSurface.noConfusion h

/-- C7 amended: when ModelContext is absent the content script installs its
execute-tool message listener and then returns early: no wrapper and no
stand-in is installed (page code calling the registration operations still
has no capability to call) and nothing is broadcast. -/
theorem c7_absent_capability_early_return (n : String) :
    installContentMain (some n) false =
      ⟨true, RegistrationSurface.absent, []⟩ := rfl

/-! ## MAIN-world content script: the four prototype wrappers (C9) -/

/-- The ctx argument of provideContext; its tools field may be missing or
not an array, modelled by the Option. -/
structure ContextArg where
  tools : Option (List PageToolDescriptor)

/-- The wrapped registerTool: store the serialized descriptor plus
executable under the tool name, call the original with the same descriptor,
broadcast, and return the original's value. -/
def registerToolWrapped {β : Type} (orig : PageToolDescriptor → β)
    (m : List (String × MainToolEntry)) (d : PageToolDescriptor) :
    List (String × MainToolEntry) × β × List ToolSchema :=
  let m2 := setKey m d.name ⟨serializeDescriptor d, d.execute⟩
  let r := orig d
  (m2, r, broadcastTools m2)

/-- The wrapped unregisterTool: delete the entry, call the original with the
same name, broadcast, return the original's value. -/
def unregisterToolWrapped {β : Type} (orig : String → β)
    (m : List (String × MainToolEntry)) (name : String) :
    List (String × MainToolEntry) × β × List ToolSchema :=
  let m2 := eraseKey m name
  let r := orig name
  (m2, r, broadcastTools m2)

/-- The wrapped provideContext: clear the map, refill it from ctx.tools when
that is an array, call the original with the same ctx, broadcast, return the
original's value. -/
def provideContextWrapped {β : Type} (orig : Option ContextArg → β)
    (m : List (String × MainToolEntry)) (ctx : Option ContextArg) :
    List (String × MainToolEntry) × β × List ToolSchema :=
  let cleared : List (String × MainToolEntry) := []
  let m2 := match ctx with
    | some c =>
        match c.tools with
        | some ts =>
            ts.foldl (fun acc t => setKey acc t.name ⟨serializeDescriptor t, t.execute⟩) cleared
        | none => cleared
    | none => cleared
  let r := orig ctx
  (m2, r, broadcastTools m2)

/-- The wrapped clearContext: clear the map, call the original, broadcast,
return the original's value. -/
def clearContextWrapped {β : Type} (orig : Unit → β)
    (m : List (String × MainToolEntry)) :
    List (String × MainToolEntry) × β × List ToolSchema :=
  let m2 : List (String × MainToolEntry) := []
  let r := orig ()
  (m2, r, broadcastTools m2)

/-- C9: each of the four wrappers is transparent to the page: it invokes the
original host method with exactly the arguments the page passed and returns
that original method's value unchanged; the wrappers only add the map update
and the broadcast of serialized descriptors visible in their other two
components. -/
theorem c9_wrappers_transparent :
    (∀ (β : Type) (orig : PageToolDescriptor → β) (m : List (String × MainToolEntry))
        (d : PageToolDescriptor), (registerToolWrapped orig m d).2.1 = orig d)
    ∧ (∀ (β : Type) (orig : String → β) (m : List (String × MainToolEntry))
        (name : String), (unregisterToolWrapped orig m name).2.1 = orig name)
    ∧ (∀ (β : Type) (orig : Option ContextArg → β) (m : List (String × MainToolEntry))
        (ctx : Option ContextArg), (provideContextWrapped orig m ctx).2.1 = orig ctx)
    ∧ (∀ (β : Type) (orig : Unit → β) (m : List (String × MainToolEntry)),
        (clearContextWrapped orig m).2.1 = orig ()) :=
  ⟨fun _ _ _ _ => rfl, fun _ _ _ _ => rfl, fun _ _ _ _ => rfl, fun _ _ _ => rfl⟩

/-- Witness for C8: with an open connection the gate dispatches at once, and
with a connection that opens at poll tick 3 the gate also dispatches. -/
theorem c8_reconnect_grace_witness :
    executeToolGate true (fun _ => false) = Except.ok ()
    ∧ executeToolGate false (fun k => decide (k = 3)) = Except.ok () :=
  ⟨(c8_reconnect_grace_window (fun _ => false)).1,
    (c8_reconnect_grace_window (fun k => decide (k = 3))).2.1.mpr
      ⟨3, by omega, by omega, by decide⟩⟩
